import Mathlib

/-!
A shallow embedding of
`Firestore/core/src/firebase/firestore/util/async_queue.cc` from the
firebase-ios-sdk repository, together with proofs about the behaviour of
`DelayedOperation` (Cancel / Run / MarkDone) and `AsyncQueue`
(Dequeue, VerifyIsCurrentQueue, EnterCheckedOperation, Enqueue,
EnqueueWithDelay, ContainsDelayedOperationWithTimerId, OnTargetQueue).

Modelling conventions:
  * Each `DelayedOperation::Data` cell (held via `std::shared_ptr<Data>` both
    by the queue's pending vector and by any handle the caller keeps) is
    identified by a natural-number id.  The queue state stores the cells in an
    association list `data : List (Nat, Data)` keyed by id, and the pending
    vector `operations_` as the list of ids, in order.  An entry removed from
    `operations_` keeps its cell in `data`, mirroring shared-pointer
    ownership: a caller may still hold the handle and call `Cancel` again.
  * The libdispatch substrate is out of scope.  `Dispatch`, `Schedule` and the
    `dispatch_after_f` trampolines only hand callbacks to the substrate, so
    they contribute no state transition.  The ambient current-queue label
    (`dispatch_queue_get_label(DISPATCH_CURRENT_QUEUE_LABEL)`) is passed to
    each lane-checking operation as an explicit argument `cur : Option String`
    (`none` models a null label, as `absl::NullSafeStringView` receives it).
  * every `FIREBASE_ASSERT_MESSAGE` and C `assert` is modelled as
    `Except.error` carrying a tag naming the violated check.
  * Invoking the captured closure `operation_()` in `DelayedOperation::Run` is
    recorded by appending the operation's id to an `executed` trace, so that
    "the Task body ran" is observable in the state.
  * `TimerId` is an enum in the source; it is modelled as `Nat`.  `Seconds`
    delays are modelled as `Nat` and stored in `target_time` just as the
    constructor stores `target_time_{delay}`.
-/

namespace AsyncQueueSpec

/-- Tags for the fatal contract violations raised by the source's
`FIREBASE_ASSERT_MESSAGE` statements and C `assert`s. -/
inductive Err where
  /-- `VerifyIsCurrentQueue`: running on the wrong dispatch queue. -/
  | wrongQueue
  /-- `VerifyIsCurrentQueue`: called outside `EnterCheckedOperation`. -/
  | notInProgress
  /-- `EnterCheckedOperation` called while an operation is in progress. -/
  | doubleEntry
  /-- `Enqueue` called while already running on the target dispatch queue. -/
  | reentrantEnqueue
  /-- `EnqueueWithDelay`: a pending callback already has this timer id. -/
  | duplicateTimer
  /-- `Dequeue`: the entry to remove is not in the pending list (also used for
  the unreachable case of an operation handle without a data cell). -/
  | missingEntry
  deriving DecidableEq, Repr

instance {ε α : Type} [DecidableEq ε] [DecidableEq α] :
    DecidableEq (Except ε α) := fun a b =>
  match a, b with
  | .ok x, .ok y =>
    if h : x = y then isTrue (by rw [h])
    else isFalse (by intro hc; cases hc; exact h rfl)
  | .error e, .error f =>
    if h : e = f then isTrue (by rw [h])
    else isFalse (by intro hc; cases hc; exact h rfl)
  | .ok _, .error _ => isFalse (by intro hc; cases hc)
  | .error _, .ok _ => isFalse (by intro hc; cases hc)

/-- One `DelayedOperation::Data` cell: `timer_id_`, `target_time_` and the
`done_` flag.  The captured closure `operation_` is represented by the cell's
id in the `executed` trace, and the `queue_` back-pointer by the fact that the
whole development works over the one owning queue's state. -/
structure Data where
  timer_id : Nat
  target_time : Nat
  done : Bool
  deriving DecidableEq, Repr

/-- The state of one `AsyncQueue` together with the `Data` cells of every
`DelayedOperation` ever scheduled on it.  `operations_` is the pending vector
(ids into `data`), `is_operation_in_progress_` the reentrancy flag,
`target_label` the label of the queue's `native_handle()` (possibly null),
`nextId` the next fresh cell id, and `executed` the trace of task bodies that
have been invoked. -/
structure AsyncQueue where
  operations_ : List Nat
  data : List (Nat × Data)
  is_operation_in_progress_ : Bool
  target_label : Option String
  nextId : Nat
  executed : List Nat
  deriving DecidableEq, Repr

/-- Association-list lookup of a `Data` cell by id (first match wins, like
dereferencing the shared pointer held by a pending-vector entry). -/
def lookupData : List (Nat × Data) → Nat → Option Data
  | [], _ => none
  | p :: ps, i => if p.1 = i then some p.2 else lookupData ps i

/-- Setting `data_->done_ = true` on the cell with id `i`. -/
def setDoneData : List (Nat × Data) → Nat → List (Nat × Data)
  | [], _ => []
  | p :: ps, i =>
    (if p.1 = i then (p.1, { p.2 with done := true }) else p) :: setDoneData ps i

/-- `absl::NullSafeStringView`: a null `const char*` becomes the empty
string view. -/
def NullSafeStringView (s : Option String) : String :=
  s.getD ""

/-- `AsyncQueue::GetCurrentQueueLabel`: the label of the queue the caller is
currently executing on, null-safe.  The ambient label is the argument. -/
def GetCurrentQueueLabel (cur : Option String) : String :=
  NullSafeStringView cur

/-- `AsyncQueue::GetTargetQueueLabel`: the label of this queue's
`native_handle()`, null-safe. -/
def GetTargetQueueLabel (q : AsyncQueue) : String :=
  NullSafeStringView q.target_label

/-- `AsyncQueue::OnTargetQueue`: string comparison of the current and target
queue labels. -/
def OnTargetQueue (q : AsyncQueue) (cur : Option String) : Bool :=
  GetCurrentQueueLabel cur == GetTargetQueueLabel q

/-- `AsyncQueue::VerifyIsCurrentQueue`: asserts `OnTargetQueue()` and then
`is_operation_in_progress_`; no state change. -/
def VerifyIsCurrentQueue (q : AsyncQueue) (cur : Option String) :
    Except Err Unit :=
  if !(OnTargetQueue q cur) then .error .wrongQueue
  else if !q.is_operation_in_progress_ then .error .notInProgress
  else .ok ()

/-- `AsyncQueue::Dequeue`: `std::remove` of every pending-vector entry equal
to the dequeued operation (equal means sharing the same `Data` cell, i.e. the
same id), with the `assert(new_end != operations_.end())` that at least one
entry was present. -/
def Dequeue (q : AsyncQueue) (i : Nat) : Except Err AsyncQueue :=
  if i ∈ q.operations_ then
    .ok { q with operations_ := q.operations_.filter (fun j => j != i) }
  else .error .missingEntry

/-- `DelayedOperation::MarkDone`: sets `data_->done_ = true`, then
`queue_->Dequeue(*this)`. -/
def MarkDone (q : AsyncQueue) (i : Nat) : Except Err AsyncQueue :=
  Dequeue { q with data := setDoneData q.data i } i

/-- `DelayedOperation::Cancel`: verifies the current queue, then marks done
(and dequeues) only if not already done.  The `none` branch of the cell
lookup is unreachable in the source (a handle always owns its `Data`). -/
def Cancel (q : AsyncQueue) (cur : Option String) (i : Nat) :
    Except Err AsyncQueue :=
  match VerifyIsCurrentQueue q cur with
  | .error e => .error e
  | .ok _ =>
    match lookupData q.data i with
    | none => .error .missingEntry
    | some d => if d.done then .ok q else MarkDone q i

/-- Invocation of the captured closure `operation_()`: append the operation's
id to the trace of executed task bodies. -/
def execTask (q : AsyncQueue) (i : Nat) : AsyncQueue :=
  { q with executed := q.executed ++ [i] }

/-- `DelayedOperation::Run`: verifies the current queue; if not already done,
marks done (which dequeues) and only then invokes `operation_()`. -/
def Run (q : AsyncQueue) (cur : Option String) (i : Nat) :
    Except Err AsyncQueue :=
  match VerifyIsCurrentQueue q cur with
  | .error e => .error e
  | .ok _ =>
    match lookupData q.data i with
    | none => .error .missingEntry
    | some d =>
      if d.done then .ok q
      else
        match MarkDone q i with
        | .error e => .error e
        | .ok q1 => .ok (execTask q1 i)

/-- `AsyncQueue::EnterCheckedOperation`: asserts the flag is clear, sets it,
verifies the current queue, runs the operation, and clears the flag. -/
def EnterCheckedOperation (q : AsyncQueue) (cur : Option String)
    (op : AsyncQueue → AsyncQueue) : Except Err AsyncQueue :=
  if q.is_operation_in_progress_ then .error .doubleEntry
  else
    match VerifyIsCurrentQueue { q with is_operation_in_progress_ := true } cur with
    | .error e => .error e
    | .ok _ =>
      .ok { op { q with is_operation_in_progress_ := true } with
            is_operation_in_progress_ := false }

/-- `AsyncQueue::Enqueue`: asserts
`!is_operation_in_progress_ || !OnTargetQueue()`, then forwards the operation
to the substrate via `Dispatch` (modelled as plain success, since `Dispatch`
itself does not touch the queue state). -/
def Enqueue (q : AsyncQueue) (cur : Option String) : Except Err Unit :=
  if q.is_operation_in_progress_ && OnTargetQueue q cur then
    .error .reentrantEnqueue
  else .ok ()

/-- `AsyncQueue::ContainsDelayedOperationWithTimerId`: linear `std::find_if`
over the pending vector comparing `timer_id()`. -/
def ContainsDelayedOperationWithTimerId (q : AsyncQueue) (tid : Nat) : Bool :=
  q.operations_.any fun j =>
    match lookupData q.data j with
    | some d => d.timer_id == tid
    | none => false

/-- `AsyncQueue::EnqueueWithDelay`: asserts no pending callback has the same
timer id, then `emplace_back`s a fresh `DelayedOperation` (whose constructor
stores `target_time_{delay}` and `done_ = false`) and returns
`operations_.back()`, i.e. a handle (id) to the new entry. -/
def EnqueueWithDelay (q : AsyncQueue) (delay : Nat) (tid : Nat) :
    Except Err (AsyncQueue × Nat) :=
  if ContainsDelayedOperationWithTimerId q tid then .error .duplicateTimer
  else
    .ok ({ q with
            operations_ := q.operations_ ++ [q.nextId],
            data := q.data ++ [(q.nextId, ⟨tid, delay, false⟩)],
            nextId := q.nextId + 1 },
         q.nextId)

/-- Well-formedness of a queue state: no duplicate pending entries, no
duplicate cell ids, every pending entry has a cell, a cell's entry is pending
exactly when its `done_` flag is unset, and `nextId` is fresh. -/
def WF (q : AsyncQueue) : Prop :=
  q.operations_.Nodup ∧
  (q.data.map Prod.fst).Nodup ∧
  (∀ j ∈ q.operations_, j ∈ q.data.map Prod.fst) ∧
  (∀ p ∈ q.data, (p.1 ∈ q.operations_ ↔ p.2.done = false)) ∧
  (∀ p ∈ q.data, p.1 < q.nextId)

instance (q : AsyncQueue) : Decidable (WF q) := by
  unfold WF; infer_instance

/-- A sample queue state for concrete witnesses: one pending operation
(id 0, timer id 3, delay 5, not done) on an unlabeled queue, with the
in-progress flag set (as it is inside any `EnterCheckedOperation` dispatch). -/
def exQueue : AsyncQueue :=
  ⟨[0], [(0, ⟨3, 5, false⟩)], true, none, 1, []⟩

/-- The state `exQueue` reaches after id 0 is cancelled: the pending list is
empty but the cell survives with `done_ = true`. -/
def exCancelled : AsyncQueue :=
  ⟨[], [(0, ⟨3, 5, true⟩)], true, none, 1, []⟩

/-- An idle sample queue (no operation in progress, nothing pending). -/
def exIdle : AsyncQueue :=
  ⟨[], [], false, none, 0, []⟩

/-- The state `exCancelled` reaches after timer id 3 is scheduled again
(delay 7): a fresh pending entry with id 1 next to the dead cell 0. -/
def exScheduled : AsyncQueue :=
  ⟨[1], [(0, ⟨3, 5, true⟩), (1, ⟨3, 7, false⟩)], true, none, 2, []⟩

example : Cancel exQueue none 0 = .ok exCancelled := by decide
example : Run exQueue none 0 = .ok ⟨[], [(0, ⟨3, 5, true⟩)], true, none, 1, [0]⟩ := by decide
example : Run exCancelled none 0 = .ok exCancelled := by decide
example : Cancel exCancelled none 0 = .ok exCancelled := by decide
example : EnqueueWithDelay exQueue 7 3 = .error .duplicateTimer := by decide
example : EnqueueWithDelay exCancelled 7 3 =
    .ok (⟨[1], [(0, ⟨3, 5, true⟩), (1, ⟨3, 7, false⟩)], true, none, 2, []⟩, 1) := by decide
example : Enqueue exQueue none = .error .reentrantEnqueue := by decide
example : Enqueue exQueue (some "other") = .ok () := by decide
example : VerifyIsCurrentQueue exIdle none = .error .notInProgress := by decide
example : WF exQueue := by decide
example : WF exCancelled := by decide

/-- A lookup hit is a member of the association list. -/
theorem lookupData_mem {l : List (Nat × Data)} {i : Nat} {d : Data}
    (h : lookupData l i = some d) : (i, d) ∈ l := by
  induction l with
  | nil => simp [lookupData] at h
  | cons p ps ih =>
    by_cases heq : p.1 = i
    · simp only [lookupData, if_pos heq] at h
      injection h with h
      subst h; subst heq
      simp
    · simp only [lookupData, if_neg heq] at h
      exact List.mem_cons_of_mem _ (ih h)

/-- Lookup in an appended list when the left part already has the key. -/
theorem lookupData_append_left {l m : List (Nat × Data)} {i : Nat} {d : Data}
    (h : lookupData l i = some d) : lookupData (l ++ m) i = some d := by
  induction l with
  | nil => simp [lookupData] at h
  | cons p ps ih =>
    by_cases heq : p.1 = i
    · simp only [lookupData, if_pos heq] at h ⊢; exact h
    · simp only [lookupData, if_neg heq, List.cons_append] at h ⊢
      exact ih h

/-- Lookup in an appended list when the left part misses the key. -/
theorem lookupData_append_right {l m : List (Nat × Data)} {i : Nat}
    (h : lookupData l i = none) : lookupData (l ++ m) i = lookupData m i := by
  induction l with
  | nil => rfl
  | cons p ps ih =>
    by_cases heq : p.1 = i
    · simp [lookupData, if_pos heq] at h
    · simp only [lookupData, if_neg heq, List.cons_append] at h ⊢
      exact ih h

/-- A lookup misses exactly when the key is not among the stored keys. -/
theorem lookupData_eq_none_iff {l : List (Nat × Data)} {i : Nat} :
    lookupData l i = none ↔ i ∉ l.map Prod.fst := by
  induction l with
  | nil => simp [lookupData]
  | cons p ps ih =>
    by_cases heq : p.1 = i
    · simp [lookupData, if_pos heq, heq]
    · simp only [lookupData, if_neg heq, ih, List.map_cons, List.mem_cons]
      constructor
      · intro h hc
        rcases hc with hc | hc
        · exact heq hc.symm
        · exact h hc
      · intro h hc
        exact h (Or.inr hc)

/-- A key that is stored can be looked up. -/
theorem lookupData_isSome_of_mem {l : List (Nat × Data)} {i : Nat}
    (h : i ∈ l.map Prod.fst) : ∃ d, lookupData l i = some d := by
  cases hl : lookupData l i with
  | some d => exact ⟨d, rfl⟩
  | none => exact absurd h (lookupData_eq_none_iff.mp hl)

/-- Looking up the cell whose done flag was just set. -/
theorem lookupData_setDoneData_self (l : List (Nat × Data)) (i : Nat) :
    lookupData (setDoneData l i) i =
      Option.map (fun d => { d with done := true }) (lookupData l i) := by
  induction l with
  | nil => rfl
  | cons p ps ih =>
    by_cases heq : p.1 = i
    · simp [lookupData, setDoneData, if_pos heq, heq]
    · simp only [lookupData, setDoneData, if_neg heq]
      exact ih

/-- Setting one cell's done flag leaves every other cell's lookup alone. -/
theorem lookupData_setDoneData_ne {l : List (Nat × Data)} {i j : Nat}
    (h : j ≠ i) : lookupData (setDoneData l i) j = lookupData l j := by
  induction l with
  | nil => simp [setDoneData]
  | cons p ps ih =>
    by_cases heq : p.1 = i
    · have hpj : ¬(p.1 = j) := by omega
      simp only [setDoneData, if_pos heq, lookupData]
      rw [if_neg (by simpa [heq] using hpj), if_neg hpj]
      exact ih
    · by_cases hpj : p.1 = j
      · simp only [setDoneData, if_neg heq, lookupData]
        rw [if_pos hpj, if_pos hpj]
      · simp only [setDoneData, if_neg heq, lookupData]
        rw [if_neg hpj, if_neg hpj]
        exact ih

/-- Setting a done flag does not change the stored keys. -/
theorem keys_setDoneData (l : List (Nat × Data)) (i : Nat) :
    (setDoneData l i).map Prod.fst = l.map Prod.fst := by
  induction l with
  | nil => simp [setDoneData]
  | cons p ps ih =>
    by_cases heq : p.1 = i <;> simp [setDoneData, heq, ih]

/-- Members of the list after a done flag was set: either the updated cell,
or an untouched cell with a different key. -/
theorem mem_setDoneData {l : List (Nat × Data)} {i : Nat} {p' : Nat × Data}
    (h : p' ∈ setDoneData l i) :
    (p'.1 = i ∧ ∃ d, (i, d) ∈ l ∧ p'.2 = { d with done := true }) ∨
    (p' ∈ l ∧ p'.1 ≠ i) := by
  induction l with
  | nil => simp [setDoneData] at h
  | cons p ps ih =>
    simp only [setDoneData, List.mem_cons] at h
    rcases h with h | h
    · by_cases heq : p.1 = i
      · rw [if_pos heq] at h
        subst h
        exact Or.inl ⟨heq, p.2, by simp [← heq], rfl⟩
      · rw [if_neg heq] at h
        subst h
        exact Or.inr ⟨List.mem_cons_self _ _, heq⟩
    · rcases ih h with ⟨h1, d, hd, h2⟩ | ⟨h1, h2⟩
      · exact Or.inl ⟨h1, d, List.mem_cons_of_mem _ hd, h2⟩
      · exact Or.inr ⟨List.mem_cons_of_mem _ h1, h2⟩

/-- The dequeued entry itself is gone from the filtered pending list. -/
theorem not_mem_filter_self (l : List Nat) (i : Nat) :
    i ∉ l.filter (fun j => j != i) := by
  intro h
  have := (List.mem_filter.mp h).2
  simp at this

/-- Every other entry survives the dequeue filter. -/
theorem mem_filter_ne {l : List Nat} {i j : Nat} (h : j ≠ i) :
    j ∈ l.filter (fun k => k != i) ↔ j ∈ l := by
  simp [List.mem_filter, h]

/-- Elimination principle for a successful `Dequeue`. -/
theorem dequeue_ok_elim {q : AsyncQueue} {i : Nat} {q' : AsyncQueue}
    (h : Dequeue q i = .ok q') :
    i ∈ q.operations_ ∧
    q' = { q with operations_ := q.operations_.filter (fun j => j != i) } := by
  unfold Dequeue at h
  split at h
  · next hmem => injection h with h; exact ⟨hmem, h.symm⟩
  · simp at h

/-- Elimination principle for a successful `MarkDone`. -/
theorem markDone_ok_elim {q : AsyncQueue} {i : Nat} {q1 : AsyncQueue}
    (h : MarkDone q i = .ok q1) :
    i ∈ q.operations_ ∧
    q1 = { q with operations_ := q.operations_.filter (fun j => j != i),
                  data := setDoneData q.data i } := by
  unfold MarkDone at h
  obtain ⟨hmem, rfl⟩ := dequeue_ok_elim h
  exact ⟨hmem, rfl⟩

/-- Evaluation of `MarkDone` on a pending entry. -/
theorem markDone_eq {q : AsyncQueue} {i : Nat} (h : i ∈ q.operations_) :
    MarkDone q i =
      .ok { q with operations_ := q.operations_.filter (fun j => j != i),
                   data := setDoneData q.data i } := by
  unfold MarkDone Dequeue
  split
  · rfl
  · next hn => exact absurd h hn

/-- Evaluation of `Cancel` on an already-done entry: silent no-op. -/
theorem cancel_eq_done {q : AsyncQueue} {cur : Option String} {i : Nat}
    {d : Data} (hv : VerifyIsCurrentQueue q cur = .ok ())
    (hd : lookupData q.data i = some d) (hdone : d.done = true) :
    Cancel q cur i = .ok q := by
  unfold Cancel
  rw [hv, hd]
  simp [hdone]

/-- Evaluation of `Cancel` on a not-yet-done entry: it is `MarkDone`. -/
theorem cancel_eq_not_done {q : AsyncQueue} {cur : Option String} {i : Nat}
    {d : Data} (hv : VerifyIsCurrentQueue q cur = .ok ())
    (hd : lookupData q.data i = some d) (hdone : d.done = false) :
    Cancel q cur i = MarkDone q i := by
  unfold Cancel
  rw [hv, hd]
  simp [hdone]

/-- Evaluation of `Run` on an already-done entry: silent no-op, no task. -/
theorem run_eq_done {q : AsyncQueue} {cur : Option String} {i : Nat}
    {d : Data} (hv : VerifyIsCurrentQueue q cur = .ok ())
    (hd : lookupData q.data i = some d) (hdone : d.done = true) :
    Run q cur i = .ok q := by
  unfold Run
  rw [hv, hd]
  simp [hdone]

/-- Evaluation of `Run` on a not-yet-done pending entry: mark done and
dequeue, then invoke the task body. -/
theorem run_eq_not_done {q : AsyncQueue} {cur : Option String} {i : Nat}
    {d : Data} (hv : VerifyIsCurrentQueue q cur = .ok ())
    (hd : lookupData q.data i = some d) (hdone : d.done = false)
    (hmem : i ∈ q.operations_) :
    Run q cur i =
      .ok (execTask
        { q with operations_ := q.operations_.filter (fun j => j != i),
                 data := setDoneData q.data i } i) := by
  unfold Run
  rw [hv, hd, markDone_eq hmem]
  simp [hdone]

/-- Elimination principle for a successful `Cancel`. -/
theorem cancel_ok_elim {q : AsyncQueue} {cur : Option String} {i : Nat}
    {q' : AsyncQueue} (h : Cancel q cur i = .ok q') :
    VerifyIsCurrentQueue q cur = .ok () ∧
    ∃ d, lookupData q.data i = some d ∧
      ((d.done = true ∧ q' = q) ∨ (d.done = false ∧ MarkDone q i = .ok q')) := by
  unfold Cancel at h
  split at h
  · simp at h
  · next u hv =>
    cases u
    refine ⟨hv, ?_⟩
    split at h
    · simp at h
    · next d hd =>
      refine ⟨d, hd, ?_⟩
      split at h
      · next hdone =>
        injection h with h
        exact Or.inl ⟨hdone, h.symm⟩
      · next hdone =>
        exact Or.inr ⟨by simpa using hdone, h⟩

/-- Elimination principle for a successful `Run`. -/
theorem run_ok_elim {q : AsyncQueue} {cur : Option String} {i : Nat}
    {q' : AsyncQueue} (h : Run q cur i = .ok q') :
    VerifyIsCurrentQueue q cur = .ok () ∧
    ∃ d, lookupData q.data i = some d ∧
      ((d.done = true ∧ q' = q) ∨
       (d.done = false ∧
        ∃ q1, MarkDone q i = .ok q1 ∧ q' = execTask q1 i)) := by
  unfold Run at h
  split at h
  · simp at h
  · next u hv =>
    cases u
    refine ⟨hv, ?_⟩
    split at h
    · simp at h
    · next d hd =>
      refine ⟨d, hd, ?_⟩
      split at h
      · next hdone =>
        injection h with h
        exact Or.inl ⟨hdone, h.symm⟩
      · next hdone =>
        split at h
        · simp at h
        · next q1 hq1 =>
          injection h with h
          exact Or.inr ⟨by simpa using hdone, q1, hq1, h.symm⟩

/-- Elimination principle for a successful `EnqueueWithDelay`. -/
theorem enqueueWithDelay_ok_elim {q : AsyncQueue} {delay tid : Nat}
    {q' : AsyncQueue} {hd : Nat}
    (h : EnqueueWithDelay q delay tid = .ok (q', hd)) :
    ContainsDelayedOperationWithTimerId q tid = false ∧
    hd = q.nextId ∧
    q' = { q with operations_ := q.operations_ ++ [q.nextId],
                  data := q.data ++ [(q.nextId, ⟨tid, delay, false⟩)],
                  nextId := q.nextId + 1 } := by
  unfold EnqueueWithDelay at h
  split at h
  · simp at h
  · next hc =>
    injection h with h
    obtain ⟨h1, h2⟩ := Prod.mk.injEq .. ▸ h
    exact ⟨by simpa using hc, h2.symm, h1.symm⟩

/-- The linear scan misses a timer id exactly when no pending entry's cell
carries it. -/
theorem contains_eq_false_iff {q : AsyncQueue} {tid : Nat} :
    ContainsDelayedOperationWithTimerId q tid = false ↔
    ∀ j ∈ q.operations_, ∀ d, lookupData q.data j = some d →
      d.timer_id ≠ tid := by
  unfold ContainsDelayedOperationWithTimerId
  rw [List.any_eq_false]
  constructor
  · intro h j hj d hd hcontra
    have hx := h j hj
    rw [hd] at hx
    simp [hcontra] at hx
  · intro h j hj
    cases hl : lookupData q.data j with
    | none => simp
    | some d => simpa using h j hj d hl

/-- The linear scan finds a timer id exactly when some pending entry's cell
carries it. -/
theorem contains_eq_true_iff {q : AsyncQueue} {tid : Nat} :
    ContainsDelayedOperationWithTimerId q tid = true ↔
    ∃ j ∈ q.operations_, ∃ d, lookupData q.data j = some d ∧
      d.timer_id = tid := by
  unfold ContainsDelayedOperationWithTimerId
  rw [List.any_eq_true]
  constructor
  · rintro ⟨j, hj, hmatch⟩
    cases hl : lookupData q.data j with
    | none => rw [hl] at hmatch; simp at hmatch
    | some d =>
      rw [hl] at hmatch
      exact ⟨j, hj, d, hl, by simpa using hmatch⟩
  · rintro ⟨j, hj, d, hd, htid⟩
    refine ⟨j, hj, ?_⟩
    rw [hd]
    simpa using htid

/-- After `MarkDone`, the scan for the entry's timer id finds nothing,
provided no other pending entry carried the same id. -/
theorem contains_markDone_false {q : AsyncQueue} {i tid : Nat}
    {q1 : AsyncQueue} (hmd : MarkDone q i = .ok q1)
    (huniq : ∀ j ∈ q.operations_, j ≠ i →
      ∀ d', lookupData q.data j = some d' → d'.timer_id ≠ tid) :
    ContainsDelayedOperationWithTimerId q1 tid = false := by
  obtain ⟨hmem, rfl⟩ := markDone_ok_elim hmd
  rw [contains_eq_false_iff]
  intro j hj d hd
  have hj0 : j ∈ q.operations_.filter (fun k => k != i) := hj
  have hj1 : j ∈ q.operations_ := (List.mem_filter.mp hj0).1
  have hj2 : j ≠ i := by simpa using (List.mem_filter.mp hj0).2
  have hd0 : lookupData (setDoneData q.data i) j = some d := hd
  rw [lookupData_setDoneData_ne hj2] at hd0
  exact huniq j hj1 hj2 d hd0

/-- `MarkDone` preserves well-formedness. -/
theorem wf_markDone {q : AsyncQueue} {i : Nat} {q1 : AsyncQueue}
    (hwf : WF q) (h : MarkDone q i = .ok q1) : WF q1 := by
  obtain ⟨hnd, hndk, hsub, hinv, hfresh⟩ := hwf
  obtain ⟨hmem, rfl⟩ := markDone_ok_elim h
  refine ⟨?_, ?_, ?_, ?_, ?_⟩
  · exact hnd.filter _
  · simpa [keys_setDoneData] using hndk
  · intro j hj
    have hj' : j ∈ q.operations_.filter (fun k => k != i) := hj
    have hj1 := (List.mem_filter.mp hj').1
    simpa [keys_setDoneData] using hsub j hj1
  · intro p hp
    have hp' : p ∈ setDoneData q.data i := hp
    rcases mem_setDoneData hp' with ⟨h1, d, hdmem, h2⟩ | ⟨h1, h2⟩
    · rw [h1, h2]
      simp [not_mem_filter_self]
    · show p.1 ∈ q.operations_.filter (fun k => k != i) ↔ p.2.done = false
      rw [mem_filter_ne h2]
      exact hinv p h1
  · intro p hp
    have hp' : p ∈ setDoneData q.data i := hp
    rcases mem_setDoneData hp' with ⟨h1, d, hdmem, h2⟩ | ⟨h1, h2⟩
    · rw [h1]
      exact hfresh (i, d) hdmem
    · exact hfresh p h1

/-- Invoking a task body preserves well-formedness (the trace is not part of
the invariant). -/
theorem wf_execTask {q : AsyncQueue} (i : Nat) (hwf : WF q) :
    WF (execTask q i) := by
  obtain ⟨h1, h2, h3, h4, h5⟩ := hwf
  exact ⟨h1, h2, h3, h4, h5⟩

/-- `Cancel` preserves well-formedness. -/
theorem wf_cancel {q : AsyncQueue} {cur : Option String} {i : Nat}
    {q' : AsyncQueue} (hwf : WF q) (h : Cancel q cur i = .ok q') : WF q' := by
  obtain ⟨-, d, -, hcase⟩ := cancel_ok_elim h
  rcases hcase with ⟨-, rfl⟩ | ⟨-, hmd⟩
  · exact hwf
  · exact wf_markDone hwf hmd

/-- `Run` preserves well-formedness. -/
theorem wf_run {q : AsyncQueue} {cur : Option String} {i : Nat}
    {q' : AsyncQueue} (hwf : WF q) (h : Run q cur i = .ok q') : WF q' := by
  obtain ⟨-, d, -, hcase⟩ := run_ok_elim h
  rcases hcase with ⟨-, rfl⟩ | ⟨-, q1, hmd, rfl⟩
  · exact hwf
  · exact wf_execTask _ (wf_markDone hwf hmd)

/-- `EnqueueWithDelay` preserves well-formedness. -/
theorem wf_enqueueWithDelay {q : AsyncQueue} {delay tid : Nat}
    {q' : AsyncQueue} {hdl : Nat} (hwf : WF q)
    (h : EnqueueWithDelay q delay tid = .ok (q', hdl)) : WF q' := by
  obtain ⟨hnd, hndk, hsub, hinv, hfresh⟩ := hwf
  obtain ⟨-, -, rfl⟩ := enqueueWithDelay_ok_elim h
  have hfreshKey : q.nextId ∉ q.data.map Prod.fst := by
    intro hc
    obtain ⟨d0, hd0⟩ := lookupData_isSome_of_mem hc
    have := hfresh _ (lookupData_mem hd0)
    omega
  have hfreshOp : q.nextId ∉ q.operations_ := fun hc => hfreshKey (hsub _ hc)
  refine ⟨?_, ?_, ?_, ?_, ?_⟩
  · rw [List.nodup_append]
    refine ⟨hnd, List.nodup_singleton _, ?_⟩
    intro a ha hb
    have hab : a = q.nextId := by simpa using hb
    subst hab
    exact hfreshOp ha
  · show ((q.data ++ [(q.nextId, (⟨tid, delay, false⟩ : Data))]).map Prod.fst).Nodup
    rw [List.map_append, List.nodup_append]
    refine ⟨hndk, by simp, ?_⟩
    intro a ha hb
    have hab : a = q.nextId := by simpa using hb
    subst hab
    exact hfreshKey ha
  · intro j hj
    have hj' : j ∈ q.operations_ ++ [q.nextId] := hj
    show j ∈ (q.data ++ [(q.nextId, (⟨tid, delay, false⟩ : Data))]).map Prod.fst
    rcases List.mem_append.mp hj' with hj0 | hj0
    · simp only [List.map_append, List.mem_append]
      exact Or.inl (hsub j hj0)
    · simp only [List.map_append, List.mem_append]
      right
      simpa using hj0
  · intro p hp
    have hp' : p ∈ q.data ++ [(q.nextId, (⟨tid, delay, false⟩ : Data))] := hp
    show p.1 ∈ q.operations_ ++ [q.nextId] ↔ p.2.done = false
    rcases List.mem_append.mp hp' with hp0 | hp0
    · have hlt := hfresh p hp0
      have hiv := hinv p hp0
      constructor
      · intro hc
        rcases List.mem_append.mp hc with hc | hc
        · exact hiv.mp hc
        · have : p.1 = q.nextId := by simpa using hc
          omega
      · intro hc
        exact List.mem_append.mpr (Or.inl (hiv.mpr hc))
    · have hp1 : p = (q.nextId, (⟨tid, delay, false⟩ : Data)) := by simpa using hp0
      subst hp1
      simp
  · intro p hp
    have hp' : p ∈ q.data ++ [(q.nextId, (⟨tid, delay, false⟩ : Data))] := hp
    show p.1 < q.nextId + 1
    rcases List.mem_append.mp hp' with hp0 | hp0
    · have := hfresh p hp0
      omega
    · have hp1 : p = (q.nextId, (⟨tid, delay, false⟩ : Data)) := by simpa using hp0
      subst hp1
      simp

/-- When the duplicate-timer scan misses, `EnqueueWithDelay` succeeds and
appends the fresh entry. -/
theorem enqueueWithDelay_ok_of_not_contains {q : AsyncQueue} {delay tid : Nat}
    (h : ContainsDelayedOperationWithTimerId q tid = false) :
    EnqueueWithDelay q delay tid =
      .ok ({ q with operations_ := q.operations_ ++ [q.nextId],
                    data := q.data ++ [(q.nextId, ⟨tid, delay, false⟩)],
                    nextId := q.nextId + 1 }, q.nextId) := by
  unfold EnqueueWithDelay
  rw [if_neg (by simp [h])]

/-- C1: the captured task body executes at most once and never after a
cancellation.  A completed `Cancel` leaves the entry's done flag set without
running the body (the `executed` trace is unchanged); a completed `Run`
leaves the done flag set; and on any entry whose done flag is set, `Run`
(under a passing queue check) is a silent no-op `.ok q` that does not invoke
the task body. -/
theorem run_never_after_done_or_twice (q : AsyncQueue) (cur : Option String)
    (i : Nat) :
    (∀ q', Cancel q cur i = .ok q' →
      (∃ d', lookupData q'.data i = some d' ∧ d'.done = true) ∧
      q'.executed = q.executed) ∧
    (∀ q', Run q cur i = .ok q' →
      ∃ d', lookupData q'.data i = some d' ∧ d'.done = true) ∧
    (∀ d, lookupData q.data i = some d → d.done = true →
      VerifyIsCurrentQueue q cur = .ok () → Run q cur i = .ok q) := by
  refine ⟨?_, ?_, ?_⟩
  · intro q' h
    obtain ⟨hv, d, hd, hcase⟩ := cancel_ok_elim h
    rcases hcase with ⟨hdone, rfl⟩ | ⟨hdone, hmd⟩
    · exact ⟨⟨d, hd, hdone⟩, rfl⟩
    · obtain ⟨hmem, rfl⟩ := markDone_ok_elim hmd
      refine ⟨⟨{ d with done := true }, ?_, rfl⟩, rfl⟩
      show lookupData (setDoneData q.data i) i = some { d with done := true }
      rw [lookupData_setDoneData_self, hd]
      rfl
  · intro q' h
    obtain ⟨hv, d, hd, hcase⟩ := run_ok_elim h
    rcases hcase with ⟨hdone, rfl⟩ | ⟨hdone, q1, hmd, rfl⟩
    · exact ⟨d, hd, hdone⟩
    · obtain ⟨hmem, rfl⟩ := markDone_ok_elim hmd
      refine ⟨{ d with done := true }, ?_, rfl⟩
      show lookupData (setDoneData q.data i) i = some { d with done := true }
      rw [lookupData_setDoneData_self, hd]
      rfl
  · intro d hd hdone hv
    exact run_eq_done hv hd hdone

/-- Witness for C1: cancelling the pending entry of `exQueue` reaches
`exCancelled`, and a subsequent `Run` on the cancelled entry is a silent
no-op that runs nothing. -/
theorem run_never_after_done_or_twice_witness :
    Cancel exQueue none 0 = .ok exCancelled ∧
    Run exCancelled none 0 = .ok exCancelled :=
  ⟨by decide,
   (run_never_after_done_or_twice exCancelled none 0).2.2 ⟨3, 5, true⟩
     (by decide) (by decide) (by decide)⟩

/-- C2: on a not-yet-done entry, `Cancel` succeeds, sets the done flag,
removes exactly that entry from the pending list, touches no other entry,
and never invokes the captured task; on an already-done entry, a (second)
`Cancel` returns the state unchanged. -/
theorem cancel_marks_done_and_idempotent (q : AsyncQueue)
    (cur : Option String) (i : Nat) (d : Data)
    (hd : lookupData q.data i = some d)
    (hver : VerifyIsCurrentQueue q cur = .ok ()) :
    (d.done = false → i ∈ q.operations_ →
      ∃ q', Cancel q cur i = .ok q' ∧
        lookupData q'.data i = some { d with done := true } ∧
        i ∉ q'.operations_ ∧
        q'.executed = q.executed ∧
        (∀ j, j ≠ i →
          ((j ∈ q'.operations_ ↔ j ∈ q.operations_) ∧
           lookupData q'.data j = lookupData q.data j))) ∧
    (d.done = true → Cancel q cur i = .ok q) := by
  constructor
  · intro hdone hmem
    rw [cancel_eq_not_done hver hd hdone, markDone_eq hmem]
    refine ⟨_, rfl, ?_, ?_, rfl, ?_⟩
    · show lookupData (setDoneData q.data i) i = some { d with done := true }
      rw [lookupData_setDoneData_self, hd]
      rfl
    · exact not_mem_filter_self _ _
    · intro j hj
      exact ⟨mem_filter_ne hj, lookupData_setDoneData_ne hj⟩
  · intro hdone
    exact cancel_eq_done hver hd hdone

/-- Witness for C2: cancelling the live entry of `exQueue` reaches
`exCancelled`; a second `Cancel` on the same handle leaves the state
unchanged. -/
theorem cancel_marks_done_and_idempotent_witness :
    Cancel exQueue none 0 = .ok exCancelled ∧
    Cancel exCancelled none 0 = .ok exCancelled :=
  ⟨by decide,
   (cancel_marks_done_and_idempotent exCancelled none 0 ⟨3, 5, true⟩
     (by decide) (by decide)).2 (by decide)⟩

/-- C3: `EnqueueWithDelay` fails (with the duplicate-timer fatal assertion)
iff the linear scan finds a pending entry with the same timer id; on success
it appends exactly one new entry carrying that timer id, changes no other
cell, and returns a handle to the new entry. -/
theorem enqueueWithDelay_duplicate_check (q : AsyncQueue) (delay tid : Nat)
    (hfresh : ∀ p ∈ q.data, p.1 < q.nextId) :
    ((∃ e, EnqueueWithDelay q delay tid = .error e) ↔
      ContainsDelayedOperationWithTimerId q tid = true) ∧
    (ContainsDelayedOperationWithTimerId q tid = false →
      ∃ q', EnqueueWithDelay q delay tid = .ok (q', q.nextId) ∧
        q'.operations_ = q.operations_ ++ [q.nextId] ∧
        lookupData q'.data q.nextId = some ⟨tid, delay, false⟩ ∧
        (∀ j, j ≠ q.nextId →
          lookupData q'.data j = lookupData q.data j)) := by
  have hnone : lookupData q.data q.nextId = none := by
    rw [lookupData_eq_none_iff]
    intro hc
    obtain ⟨d0, hd0⟩ := lookupData_isSome_of_mem hc
    have := hfresh _ (lookupData_mem hd0)
    omega
  constructor
  · constructor
    · rintro ⟨e, he⟩
      by_contra hc
      have hfalse : ContainsDelayedOperationWithTimerId q tid = false := by
        cases h : ContainsDelayedOperationWithTimerId q tid
        · rfl
        · exact absurd h hc
      rw [enqueueWithDelay_ok_of_not_contains hfalse] at he
      simp at he
    · intro h
      refine ⟨.duplicateTimer, ?_⟩
      unfold EnqueueWithDelay
      rw [if_pos h]
  · intro h
    rw [enqueueWithDelay_ok_of_not_contains h]
    refine ⟨_, rfl, rfl, ?_, ?_⟩
    · show lookupData (q.data ++ [(q.nextId, (⟨tid, delay, false⟩ : Data))])
        q.nextId = some ⟨tid, delay, false⟩
      rw [lookupData_append_right hnone]
      simp [lookupData]
    · intro j hj
      show lookupData (q.data ++ [(q.nextId, (⟨tid, delay, false⟩ : Data))]) j =
        lookupData q.data j
      cases hl : lookupData q.data j with
      | some d0 => rw [lookupData_append_left hl]
      | none =>
        rw [lookupData_append_right hl]
        simp [lookupData, Ne.symm hj]

/-- Witness for C3: scheduling timer id 3 on `exQueue`, whose pending entry
already carries timer id 3, hits the duplicate-timer assertion. -/
theorem enqueueWithDelay_duplicate_check_witness :
    ∃ e, EnqueueWithDelay exQueue 7 3 = .error e :=
  (enqueueWithDelay_duplicate_check exQueue 7 3 (by decide)).1.mpr (by decide)

/-- C4: `ContainsDelayedOperationWithTimerId` answers true in the state
immediately after a successful `EnqueueWithDelay` with that id, and false in
the state immediately after the entry carrying that id fires (`Run`) or is
cancelled (`Cancel`), provided no other pending entry carries the id. -/
theorem containsTimer_after_schedule_fire_cancel (tid : Nat) :
    (∀ q delay q' hdl, (∀ p ∈ q.data, p.1 < q.nextId) →
      EnqueueWithDelay q delay tid = .ok (q', hdl) →
      ContainsDelayedOperationWithTimerId q' tid = true) ∧
    (∀ q cur i d q', lookupData q.data i = some d → d.timer_id = tid →
      d.done = false →
      (∀ j ∈ q.operations_, j ≠ i →
        ∀ d', lookupData q.data j = some d' → d'.timer_id ≠ tid) →
      Run q cur i = .ok q' →
      ContainsDelayedOperationWithTimerId q' tid = false) ∧
    (∀ q cur i d q', lookupData q.data i = some d → d.timer_id = tid →
      d.done = false →
      (∀ j ∈ q.operations_, j ≠ i →
        ∀ d', lookupData q.data j = some d' → d'.timer_id ≠ tid) →
      Cancel q cur i = .ok q' →
      ContainsDelayedOperationWithTimerId q' tid = false) := by
  refine ⟨?_, ?_, ?_⟩
  · intro q delay q' hdl hfresh he
    obtain ⟨-, -, rfl⟩ := enqueueWithDelay_ok_elim he
    have hnone : lookupData q.data q.nextId = none := by
      rw [lookupData_eq_none_iff]
      intro hc
      obtain ⟨d0, hd0⟩ := lookupData_isSome_of_mem hc
      have := hfresh _ (lookupData_mem hd0)
      omega
    rw [contains_eq_true_iff]
    refine ⟨q.nextId, ?_, ⟨tid, delay, false⟩, ?_, rfl⟩
    · show q.nextId ∈ q.operations_ ++ [q.nextId]
      simp
    · show lookupData (q.data ++ [(q.nextId, (⟨tid, delay, false⟩ : Data))])
        q.nextId = some ⟨tid, delay, false⟩
      rw [lookupData_append_right hnone]
      simp [lookupData]
  · intro q cur i d q' hd htid hdone huniq hrun
    obtain ⟨hv, d2, hd2, hcase⟩ := run_ok_elim hrun
    rw [hd] at hd2
    have hd2' := Option.some.inj hd2
    subst hd2'
    rcases hcase with ⟨hdone2, rfl⟩ | ⟨-, q1, hmd, rfl⟩
    · rw [hdone2] at hdone
      cases hdone
    · subst htid
      have hres := contains_markDone_false hmd huniq
      exact hres
  · intro q cur i d q' hd htid hdone huniq hcancel
    obtain ⟨hv, d2, hd2, hcase⟩ := cancel_ok_elim hcancel
    rw [hd] at hd2
    have hd2' := Option.some.inj hd2
    subst hd2'
    rcases hcase with ⟨hdone2, rfl⟩ | ⟨-, hmd⟩
    · rw [hdone2] at hdone
      cases hdone
    · subst htid
      exact contains_markDone_false hmd huniq

/-- Witness for C4: after cancelling the entry with timer id 3, the scan for
id 3 misses; after scheduling id 3 again, the scan finds it. -/
theorem containsTimer_after_schedule_fire_cancel_witness :
    ContainsDelayedOperationWithTimerId exCancelled 3 = false ∧
    ContainsDelayedOperationWithTimerId exScheduled 3 = true :=
  ⟨(containsTimer_after_schedule_fire_cancel 3).2.2 exQueue none 0 ⟨3, 5, false⟩
      exCancelled (by decide) (by decide) (by decide)
      (by intro j hj hji; simp [exQueue] at hj; exact absurd hj hji)
      (by decide),
   (containsTimer_after_schedule_fire_cancel 3).1 exCancelled 7 exScheduled 1
      (by decide) (by decide)⟩

/-- C5: setting the done flag and removal from the pending list happen
together: a successful `MarkDone` (the single step shared by the `Cancel`
and `Run` paths) removes the entry and sets its flag in one step; `Dequeue`
fails fatally when the entry is absent; and the invariant "an entry is
pending exactly when its done flag is unset" (part of `WF`) is preserved by
`Cancel`, `Run` and `EnqueueWithDelay`. -/
theorem done_and_removal_together_invariant :
    (∀ q i q1, MarkDone q i = .ok q1 →
      i ∉ q1.operations_ ∧
      lookupData q1.data i =
        Option.map (fun d => { d with done := true }) (lookupData q.data i)) ∧
    (∀ q i, i ∉ q.operations_ → Dequeue q i = .error .missingEntry) ∧
    (∀ q cur i q', WF q → Cancel q cur i = .ok q' → WF q') ∧
    (∀ q cur i q', WF q → Run q cur i = .ok q' → WF q') ∧
    (∀ q delay tid q' hdl, WF q →
      EnqueueWithDelay q delay tid = .ok (q', hdl) → WF q') := by
  refine ⟨?_, ?_, ?_, ?_, ?_⟩
  · intro q i q1 h
    obtain ⟨hmem, rfl⟩ := markDone_ok_elim h
    refine ⟨not_mem_filter_self _ _, ?_⟩
    show lookupData (setDoneData q.data i) i = _
    rw [lookupData_setDoneData_self]
  · intro q i h
    unfold Dequeue
    rw [if_neg h]
  · intro q cur i q' hwf h
    exact wf_cancel hwf h
  · intro q cur i q' hwf h
    exact wf_run hwf h
  · intro q delay tid q' hdl hwf h
    exact wf_enqueueWithDelay hwf h

/-- Witness for C5: dequeuing from an empty pending list is the fatal
missing-entry assertion, and well-formedness survives a concrete `Cancel`. -/
theorem done_and_removal_together_invariant_witness :
    Dequeue exIdle 0 = .error .missingEntry ∧ WF exCancelled :=
  ⟨done_and_removal_together_invariant.2.1 exIdle 0 (by decide),
   done_and_removal_together_invariant.2.2.1 exQueue none 0 exCancelled
     (by decide) (by decide)⟩

/-- C6: `Enqueue` raises the reentrant-submission fatal assertion iff the
in-progress flag is set and the caller's lane matches the target lane; in
every other state it forwards the task to the substrate without failing. -/
theorem enqueue_reentrancy_check (q : AsyncQueue) (cur : Option String) :
    (Enqueue q cur = .error .reentrantEnqueue ↔
      (q.is_operation_in_progress_ = true ∧ OnTargetQueue q cur = true)) ∧
    (Enqueue q cur = .ok () ↔
      (q.is_operation_in_progress_ = false ∨ OnTargetQueue q cur = false)) := by
  unfold Enqueue
  cases hp : q.is_operation_in_progress_ <;>
    cases ht : OnTargetQueue q cur <;> simp

/-- C7: `VerifyIsCurrentQueue` succeeds (with no state change) exactly when
the caller's lane matches the target lane and the in-progress flag is set,
and raises a fatal assertion exactly when either condition fails — being on
the right lane without the guarded dispatch is rejected. -/
theorem verifyIsCurrentQueue_check (q : AsyncQueue) (cur : Option String) :
    (VerifyIsCurrentQueue q cur = .ok () ↔
      (OnTargetQueue q cur = true ∧ q.is_operation_in_progress_ = true)) ∧
    ((∃ e, VerifyIsCurrentQueue q cur = .error e) ↔
      (OnTargetQueue q cur = false ∨ q.is_operation_in_progress_ = false)) := by
  unfold VerifyIsCurrentQueue
  cases ht : OnTargetQueue q cur <;>
    cases hp : q.is_operation_in_progress_ <;> simp

/-- C8: the in-progress flag follows the strictly nested machine
Idle to Entering to Idle: `EnterCheckedOperation` fails fatally whenever the
flag is already set; on a normal invocation (flag clear, lane matching) it
sets the flag, passes the queue check, runs the operation on the
flag-set state, and returns with the flag cleared; and every successful
return leaves the flag unset. -/
theorem enterCheckedOperation_flag_machine (q : AsyncQueue)
    (cur : Option String) (op : AsyncQueue → AsyncQueue) :
    (q.is_operation_in_progress_ = true →
      EnterCheckedOperation q cur op = .error .doubleEntry) ∧
    (q.is_operation_in_progress_ = false → OnTargetQueue q cur = true →
      EnterCheckedOperation q cur op =
        .ok { op { q with is_operation_in_progress_ := true } with
              is_operation_in_progress_ := false }) ∧
    (∀ q', EnterCheckedOperation q cur op = .ok q' →
      q'.is_operation_in_progress_ = false) := by
  refine ⟨?_, ?_, ?_⟩
  · intro h
    unfold EnterCheckedOperation
    rw [h]
    simp
  · intro h ht
    unfold EnterCheckedOperation
    rw [h]
    have hv : VerifyIsCurrentQueue
        { q with is_operation_in_progress_ := true } cur = .ok () := by
      unfold VerifyIsCurrentQueue
      have ht' : OnTargetQueue { q with is_operation_in_progress_ := true } cur
          = true := ht
      rw [ht']
      simp
    rw [hv]
    simp
  · intro q' h
    unfold EnterCheckedOperation at h
    split at h
    · simp at h
    · split at h
      · simp at h
      · injection h with h
        rw [← h]

/-- Witness for C8: entering while `exQueue` is mid-operation is the fatal
double-entry assertion; entering from idle wraps the operation between
setting and clearing the flag. -/
theorem enterCheckedOperation_flag_machine_witness :
    EnterCheckedOperation exQueue none id = .error .doubleEntry ∧
    EnterCheckedOperation exIdle none id =
      .ok { id { exIdle with is_operation_in_progress_ := true } with
            is_operation_in_progress_ := false } :=
  ⟨(enterCheckedOperation_flag_machine exQueue none id).1 (by decide),
   (enterCheckedOperation_flag_machine exIdle none id).2.1
     (by decide) (by decide)⟩

/-- C9: lane identity is string equality of dispatch-queue labels with a
null label read as the empty string: `OnTargetQueue` is exactly the
comparison of the null-safe labels, any two queues with equal labels are
indistinguishable to the lane check, and on an unlabeled queue an unlabeled
caller passes both `OnTargetQueue` and (with the flag set) the full
`VerifyIsCurrentQueue` check. -/
theorem lane_identity_by_label :
    NullSafeStringView none = "" ∧
    (∀ (q : AsyncQueue) (cur : Option String),
      OnTargetQueue q cur =
        (NullSafeStringView cur == NullSafeStringView q.target_label)) ∧
    (∀ (q1 q2 : AsyncQueue) (cur : Option String),
      NullSafeStringView q1.target_label = NullSafeStringView q2.target_label →
      OnTargetQueue q1 cur = OnTargetQueue q2 cur) ∧
    (∀ q : AsyncQueue, q.target_label = none →
      OnTargetQueue q none = true) ∧
    (∀ q : AsyncQueue, q.target_label = none →
      q.is_operation_in_progress_ = true →
      VerifyIsCurrentQueue q none = .ok ()) := by
  refine ⟨rfl, fun q cur => rfl, ?_, ?_, ?_⟩
  · intro q1 q2 cur h
    unfold OnTargetQueue GetCurrentQueueLabel GetTargetQueueLabel
    rw [h]
  · intro q h
    unfold OnTargetQueue GetCurrentQueueLabel GetTargetQueueLabel
      NullSafeStringView
    rw [h]
    decide
  · intro q h hp
    unfold VerifyIsCurrentQueue
    have ht : OnTargetQueue q none = true := by
      unfold OnTargetQueue GetCurrentQueueLabel GetTargetQueueLabel
        NullSafeStringView
      rw [h]
      decide
    rw [ht, hp]
    simp

/-- Witness for C9: two distinct unlabeled queues (`exIdle` and `exQueue`
differ as states) both accept an unlabeled caller, and the full queue check
passes on `exQueue`. -/
theorem lane_identity_by_label_witness :
    OnTargetQueue exIdle none = true ∧ OnTargetQueue exQueue none = true ∧
    VerifyIsCurrentQueue exQueue none = .ok () :=
  ⟨lane_identity_by_label.2.2.2.1 exIdle (by decide),
   lane_identity_by_label.2.2.2.1 exQueue (by decide),
   lane_identity_by_label.2.2.2.2 exQueue (by decide) (by decide)⟩

/-- C10: a firing `Run` marks done and removes the entry from the pending
list strictly before invoking the task body: the successful run is exactly
`execTask` applied after the `MarkDone` step, and in that intermediate state
(the one the body observes) the scan for the entry's timer id already
misses, so an `EnqueueWithDelay` with the same timer id from inside the body
succeeds instead of hitting the duplicate-timer assertion. -/
theorem run_removes_before_body (q : AsyncQueue) (cur : Option String)
    (i : Nat) (d : Data)
    (hd : lookupData q.data i = some d) (hdone : d.done = false)
    (hmem : i ∈ q.operations_)
    (hver : VerifyIsCurrentQueue q cur = .ok ())
    (huniq : ∀ j ∈ q.operations_, j ≠ i →
      ∀ d', lookupData q.data j = some d' → d'.timer_id ≠ d.timer_id) :
    ∃ q1, MarkDone q i = .ok q1 ∧
      Run q cur i = .ok (execTask q1 i) ∧
      ContainsDelayedOperationWithTimerId q1 d.timer_id = false ∧
      ∀ delay, ∃ q2 hdl,
        EnqueueWithDelay q1 delay d.timer_id = .ok (q2, hdl) := by
  refine ⟨_, markDone_eq hmem, ?_, ?_, ?_⟩
  · exact run_eq_not_done hver hd hdone hmem
  · exact contains_markDone_false (markDone_eq hmem) huniq
  · intro delay
    exact ⟨_, _, enqueueWithDelay_ok_of_not_contains
      (contains_markDone_false (markDone_eq hmem) huniq)⟩

/-- Witness for C10: firing the entry of `exQueue` dequeues before the body
runs, and scheduling timer id 3 again from the intermediate state
succeeds. -/
theorem run_removes_before_body_witness :
    ∃ q1, MarkDone exQueue 0 = .ok q1 ∧
      Run exQueue none 0 = .ok (execTask q1 0) ∧
      ContainsDelayedOperationWithTimerId q1 3 = false ∧
      ∀ delay, ∃ q2 hdl, EnqueueWithDelay q1 delay 3 = .ok (q2, hdl) :=
  run_removes_before_body exQueue none 0 ⟨3, 5, false⟩ (by decide) (by decide)
    (by decide) (by decide)
    (by intro j hj hji; simp [exQueue] at hj; exact absurd hj hji)

end AsyncQueueSpec
